import Mathlib

/-!
Shallow embedding of the ToDo-TypeScript repository (src/app.ts and the
generic utilities module): a generic in-memory `Repository` keyed by integer
ids, a `Result` success/failure wrapper, and the `TodoAppState` domain layer.

JavaScript numbers used as ids are modelled as `Int` (ids are compared and
incremented only). `Date` values are modelled as `Int` timestamps; the
current clock reading (`new Date()`) is passed explicitly as a `now`
argument, and `new Date(string)` parsing is passed as an explicit
`parseDate` function. A TypeScript object `T extends {id : number}` is
modelled as `RItem α`: the `id` field plus the remaining payload `α`
(`Omit<T,'id'>`). Object spread `{...old, ...updates}` on a partial update
is modelled by a field-wise merge function on the payload.
-/

/-- An item carrying an integer `id` plus the rest of its fields
(`T extends { id : number }` split as `id` × `Omit<T,'id'>`). -/
structure RItem (α : Type) where
  id : Int
  payload : α
deriving Repr, DecidableEq

/-- The generic repository state: the `items` array (insertion order) and the
`nextId` counter. -/
structure Repository (α : Type) where
  items : List (RItem α)
  nextId : Int
deriving Repr, DecidableEq

namespace Repository

/-- The constructor's validation loop: walks `initialItems` left to right with
the set of already-seen ids, throwing on `id <= 0` or a duplicate id, and
otherwise rebuilding the list out of copies. -/
def validateItems (seen : List Int) : List (RItem α) → Except String (List (RItem α))
  | [] => .ok []
  | it :: rest =>
    if it.id ≤ 0 then
      .error ("Invalid ID: " ++ toString it.id ++ ". ID must be a positive number")
    else if it.id ∈ seen then
      .error ("Duplicate ID found: " ++ toString it.id)
    else
      match validateItems (it.id :: seen) rest with
      | .error e => .error e
      | .ok tail => .ok (it :: tail)

/-- Source `new Repository(initialItems)`: validate, then set
`nextId = initialItems.length > 0 ? Math.max(0, ...ids) + 1 : 1`. -/
def construct (initialItems : List (RItem α)) : Except String (Repository α) :=
  match validateItems [] initialItems with
  | .error e => .error e
  | .ok items =>
    .ok { items := items,
          nextId :=
            if initialItems.isEmpty then 1
            else ((initialItems.map (fun it => it.id)).foldl max 0) + 1 }

/-- Source `getAll()`: a copy of every stored item, in order. -/
def getAll (r : Repository α) : List (RItem α) :=
  r.items

/-- Source `getById(id)`: a copy of the first item with that id, or `undefined`. -/
def getById (r : Repository α) (id : Int) : Option (RItem α) :=
  r.items.find? (fun it => it.id == id)

/-- Source `create(item)`: assign `nextId` (post-increment), append, return a copy of
the stored item. -/
def create (r : Repository α) (item : α) : RItem α × Repository α :=
  let newItem : RItem α := ⟨r.nextId, item⟩
  (newItem, { items := r.items ++ [newItem], nextId := r.nextId + 1 })

/-- The `update` body on the items array: find the first index whose item has
the given id, replace it with `{...old, ...updates}` (the merged item keeps
the old id since updates carry no id), and return the merged item. -/
def updateItems (merge : α → ρ → α) (id : Int) (updates : ρ) :
    List (RItem α) → Option (RItem α × List (RItem α))
  | [] => none
  | it :: rest =>
    if it.id == id then
      let merged : RItem α := ⟨it.id, merge it.payload updates⟩
      some (merged, merged :: rest)
    else
      match updateItems merge id updates rest with
      | none => none
      | some (m, rest') => some (m, it :: rest')

/-- Source `update(id, updates)`: `undefined` when no item has the id, otherwise the
store with the first matching item replaced by the merge, and a copy of the
merged item. -/
def update (merge : α → ρ → α) (r : Repository α) (id : Int) (updates : ρ) :
    Option (RItem α × Repository α) :=
  match updateItems merge id updates r.items with
  | none => none
  | some (m, items') => some (m, { items := items', nextId := r.nextId })

/-- Source `delete(id)`: filter out every item with the id; report whether the length
shrank. -/
def del (r : Repository α) (id : Int) : Bool × Repository α :=
  let items' := r.items.filter (fun it => !(it.id == id))
  (decide (items'.length < r.items.length), { items := items', nextId := r.nextId })

/-- Source `exists(id)`: membership test. -/
def existsId (r : Repository α) (id : Int) : Bool :=
  r.items.any (fun it => it.id == id)

/-- Source `count()`: number of stored items. -/
def count (r : Repository α) : Nat :=
  r.items.length

/-- Source `query(predicate)`: copies of the items satisfying the predicate, in
order. -/
def query (r : Repository α) (p : RItem α → Bool) : List (RItem α) :=
  r.items.filter p

end Repository

/-!
## Result

`Result<T>` has public flags `isSuccess`/`isFailure`, an optional `error`
string and a private optional `_value`. Its constructor throws when a success
carries a (JS-truthy, i.e. non-empty) error, or a failure carries none.
-/

/-- JavaScript truthiness of the optional `error : string` field. -/
def strTruthy : Option String → Bool
  | none => false
  | some s => !(s == "")

/-- A constructed `Result<T>` value: the fields the constructor assigns. -/
structure Result (α : Type) where
  isSuccess : Bool
  isFailure : Bool
  error : Option String
  value : Option α
deriving Repr, DecidableEq

namespace Result

/-- The private `Result` constructor: rejects a success with a (truthy) error
and a failure without one, otherwise assigns the fields, with
`isFailure = !isSuccess`. -/
def mkResult (isSuccess : Bool) (error : Option String) (value : Option α) :
    Except String (Result α) :=
  if isSuccess && strTruthy error then
    .error "InvalidOperation: A result cannot be successful and contain an error"
  else if !isSuccess && !strTruthy error then
    .error "InvalidOperation: A failing result needs to contain an error message"
  else
    .ok { isSuccess := isSuccess, isFailure := !isSuccess, error := error, value := value }

/-- Source `Result.ok(value)`: the fields the successful constructor call assigns. -/
def ok (value : Option α) : Result α :=
  { isSuccess := true, isFailure := false, error := none, value := value }

/-- Source `Result.fail(error)`: the fields the failing constructor call assigns
(legitimate only for a non-empty message, see `mkResult`). -/
def fail (error : String) : Result α :=
  { isSuccess := false, isFailure := true, error := some error, value := none }

/-- Source `getValue()`: throws on a non-success, otherwise returns `_value!`
(which is `undefined` when the success carried no value, hence `Option α`). -/
def getValue (r : Result α) : Except String (Option α) :=
  if r.isSuccess then .ok r.value
  else .error "Can't get the value of a failed result."

/-- Source `Result.combine(results)`: the first failure in order, else `Result.ok()`. -/
def combine (results : List (Result α)) : Result α :=
  match results.find? (fun r => r.isFailure) with
  | some r => r
  | none => ok none

end Result

/-!
## The Todo domain (src/app.ts)

`Todo` = `{id, text, status, priority, createdAt, updatedAt, dueDate?}`; as an
`RItem`, its non-id fields form `TodoFields`. `Date`s are `Int` timestamps;
`dueDate` absent is `none`.
-/

/-- Source `type TodoStatus = 'pending' | 'in-progress' | 'completed'`. -/
inductive TodoStatus where
  | pending
  | inProgress
  | completed
deriving Repr, DecidableEq

/-- Source `type TodoPriority = 'low' | 'medium' | 'high'`. -/
inductive TodoPriority where
  | low
  | medium
  | high
deriving Repr, DecidableEq

/-- The non-id fields of a `Todo` (`Omit<Todo,'id'>`). -/
structure TodoFields where
  text : String
  status : TodoStatus
  createdAt : Int
  updatedAt : Int
  dueDate : Option Int
  priority : TodoPriority
deriving Repr, DecidableEq

/-- A stored todo: id plus fields. -/
abbrev Todo := RItem TodoFields

/-- The value sitting under an explicitly present `dueDate` key of an
`UpdateTodoDto` (`string | Date | null`). -/
inductive DueDateValue where
  | nullV
  | dateV (d : Int)
  | strV (s : String)
deriving Repr, DecidableEq

/-- Source `UpdateTodoDto`: each key optionally present (`none` = key absent or
`undefined` for the three plain fields; for `dueDate`, `none` = key absent). -/
structure UpdateTodoDto where
  text : Option String
  status : Option TodoStatus
  priority : Option TodoPriority
  dueDate : Option DueDateValue
deriving Repr, DecidableEq

/-- The `updateData : Partial<Todo>` object that `updateTodo` builds and hands
to `Repository.update`: for each non-id field, `none` means the key is absent
(the spread leaves the stored field alone) and `some v` means the key is
present with value `v`. A present `dueDate` key may hold `undefined`
(= `some none`), which the spread writes over the stored due date. -/
structure TodoUpdateData where
  text : Option String
  status : Option TodoStatus
  createdAt : Option Int
  updatedAt : Option Int
  dueDate : Option (Option Int)
  priority : Option TodoPriority
deriving Repr, DecidableEq

/-- Object spread `{...old, ...updateData}`: a present key overwrites, an
absent key keeps the stored field. -/
def mergeTodo (old : TodoFields) (u : TodoUpdateData) : TodoFields :=
  { text := u.text.getD old.text,
    status := u.status.getD old.status,
    createdAt := u.createdAt.getD old.createdAt,
    updatedAt := u.updatedAt.getD old.updatedAt,
    dueDate := u.dueDate.getD old.dueDate,
    priority := u.priority.getD old.priority }

/-- The filter selector: `'all' | TodoStatus`. -/
inductive TodoFilter where
  | all
  | byStatus (s : TodoStatus)
deriving Repr, DecidableEq

/-- Source `TodoAppState`: the private `todoRepository` plus the `_filter` field. -/
structure TodoAppState where
  todoRepository : Repository TodoFields
  filter : TodoFilter
deriving Repr, DecidableEq

namespace TodoAppState

/-- The initial state: `new Repository<Todo>([])`, filter `'all'`. -/
def init : TodoAppState :=
  { todoRepository := { items := [], nextId := 1 }, filter := .all }

/-- The `todos` getter: `getAll()` when the filter is `'all'`, else the items
whose status equals the filter, recomputed from the repository on each read. -/
def todos (st : TodoAppState) : List Todo :=
  let allTodos := st.todoRepository.getAll
  match st.filter with
  | .all => allTodos
  | .byStatus s => allTodos.filter (fun t => t.payload.status == s)

/-- The fields `addTodo` receives (`Omit<Todo,'id'|'createdAt'|'updatedAt'>`). -/
structure AddFields where
  text : String
  status : TodoStatus
  priority : TodoPriority
  dueDate : Option Int
deriving Repr, DecidableEq

/-- Source `addTodo(todo)`: stamp `createdAt = updatedAt = now`, let the repository
assign the id, wrap the created copy in `Result.ok`. (`Repository.create`
never throws, so the catch branch is dead.) -/
def addTodo (now : Int) (st : TodoAppState) (todo : AddFields) :
    Result Todo × TodoAppState :=
  let newTodo : TodoFields :=
    { text := todo.text, status := todo.status, priority := todo.priority,
      dueDate := todo.dueDate, createdAt := now, updatedAt := now }
  let (createdTodo, repo') := st.todoRepository.create newTodo
  (Result.ok (some createdTodo), { st with todoRepository := repo' })

/-- The `updateData : Partial<Todo>` record that `updateTodo` builds: a fresh
`updatedAt` and only the explicitly present fields, converting `dueDate` as in
the source's conditional (`null` becomes `undefined`; a `Date` is used as is;
a truthy string goes through `new Date(...)`, modelled by `parseDate`; a falsy
string falls back to the stored due date). -/
def buildUpdateData (parseDate : String → Int) (now : Int) (updates : UpdateTodoDto)
    (todo : Todo) : TodoUpdateData :=
  { text := updates.text,
    status := updates.status,
    priority := updates.priority,
    createdAt := none,
    updatedAt := some now,
    dueDate :=
      match updates.dueDate with
      | none => none
      | some .nullV => some none
      | some (.dateV d) => some (some d)
      | some (.strV s) =>
        some (if s == "" then todo.payload.dueDate else some (parseDate s)) }

/-- Source `updateTodo(id, updates)`: fail "Todo not found" when `getById`
misses; otherwise hand the built `updateData` to `Repository.update`. -/
def updateTodo (parseDate : String → Int) (now : Int) (st : TodoAppState)
    (id : Int) (updates : UpdateTodoDto) : Result Todo × TodoAppState :=
  match st.todoRepository.getById id with
  | none => (Result.fail "Todo not found", st)
  | some todo =>
    let updateData : TodoUpdateData := buildUpdateData parseDate now updates todo
    match Repository.update mergeTodo st.todoRepository id updateData with
    | none => (Result.fail "Failed to update todo", st)
    | some (updatedTodo, repo') =>
      (Result.ok (some updatedTodo), { st with todoRepository := repo' })

/-- Source `deleteTodo(id)`: `Result.ok(true)` when the repository reports a removal,
else `Result.fail("Todo not found")`. -/
def deleteTodo (st : TodoAppState) (id : Int) : Result Bool × TodoAppState :=
  let (success, repo') := st.todoRepository.del id
  (if success then Result.ok (some true) else Result.fail "Todo not found",
   { st with todoRepository := repo' })

end TodoAppState

/-!
## Heap-instrumented repository (for copy isolation)

A value-level embedding cannot express "mutating an object previously
returned by `getAll`/`getById`", so the repository is modelled a second time
with object identity made explicit. The heap is a list of object records
(addresses are indices, allocation appends); the store keeps the addresses of
its items. Every `{...item}` spread in the source allocates a fresh record
holding the copied field values, exactly as in JavaScript; mutating a
returned object means overwriting the record at its address. Fields are
values (timestamps, strings), matching the data model, so a one-level record
copy is a full copy.
-/

/-- The heap-instrumented repository: the object heap plus the addresses of
the stored items (the `items` array) and the `nextId` counter. -/
structure HRepository (α : Type) where
  heap : List (RItem α)
  itemAddrs : List Nat
  nextId : Int
deriving Repr

namespace HRepository

/-- The object record at address `a` (out-of-range reads never happen on
reachable states; they default). -/
def cell [Inhabited α] (s : HRepository α) (a : Nat) : RItem α :=
  (s.heap[a]?).getD ⟨0, default⟩

/-- Allocate a fresh object holding `v`; returns its address. -/
def alloc (s : HRepository α) (v : RItem α) : Nat × HRepository α :=
  (s.heap.length, { s with heap := s.heap ++ [v] })

/-- The field values of the stored items, read through the heap, in insertion
order: what any value-level observation of the store sees. -/
def storedValues [Inhabited α] (s : HRepository α) : List (RItem α) :=
  s.itemAddrs.map (fun a => s.cell a)

/-- The constructor after successful validation: each `{...item}` allocates a
fresh record, so the store owns addresses `0..n-1` of a heap holding the
copied items. -/
def constructH (initialItems : List (RItem α)) (nid : Int) : HRepository α :=
  { heap := initialItems, itemAddrs := List.range initialItems.length, nextId := nid }

/-- Source `create`: build `newItem` (one allocation), append its address to the
items array, and allocate the returned copy `{...newItem}`. -/
def createH (s : HRepository α) (item : α) : Nat × HRepository α :=
  let stored : RItem α := ⟨s.nextId, item⟩
  { heap := s.heap ++ [stored, stored],
    itemAddrs := s.itemAddrs ++ [s.heap.length],
    nextId := s.nextId + 1 } |> fun s' => (s.heap.length + 1, s')

/-- Source `getAll`: allocate a fresh copy of every stored item, in order, and hand
out the fresh addresses. -/
def getAllH [Inhabited α] (s : HRepository α) : List Nat × HRepository α :=
  (List.range' s.heap.length s.itemAddrs.length,
   { s with heap := s.heap ++ s.itemAddrs.map (fun a => s.cell a) })

/-- Source `getById`: find the first stored item with the id; allocate and hand out a
copy of it, or return `undefined` allocating nothing. -/
def getByIdH [Inhabited α] (s : HRepository α) (id : Int) : Option Nat × HRepository α :=
  match s.itemAddrs.find? (fun a => (s.cell a).id == id) with
  | none => (none, s)
  | some a =>
    let (r, s') := s.alloc (s.cell a)
    (some r, s')

/-- Source `update`: on the first index whose item has the id, allocate the merged
object `{...old, ...updates}`, point the items array at it, and allocate the
returned copy; `undefined` when the id is absent. -/
def updateH [Inhabited α] (merge : α → ρ → α) (s : HRepository α) (id : Int)
    (updates : ρ) : Option Nat × HRepository α :=
  match s.itemAddrs.findIdx? (fun a => (s.cell a).id == id) with
  | none => (none, s)
  | some i =>
    let old := s.cell (s.itemAddrs.getD i 0)
    let merged : RItem α := ⟨old.id, merge old.payload updates⟩
    (some (s.heap.length + 1),
     { heap := s.heap ++ [merged, merged],
       itemAddrs := s.itemAddrs.set i s.heap.length,
       nextId := s.nextId })

/-- Source `delete`: drop every stored address whose item has the id (no
allocation). -/
def delH [Inhabited α] (s : HRepository α) (id : Int) : Bool × HRepository α :=
  let addrs' := s.itemAddrs.filter (fun a => !((s.cell a).id == id))
  (decide (addrs'.length < s.itemAddrs.length), { s with itemAddrs := addrs' })

/-- A caller mutating the object it got back: overwrite the record at its
address with new field values. -/
def mutate (s : HRepository α) (a : Nat) (v : RItem α) : HRepository α :=
  { s with heap := s.heap.set a v }

/-- Reachable instrumented states, paired with the set `H` of addresses the
store has handed out to callers: any interleaving of repository operations
and caller-side mutations of previously returned objects. -/
inductive Reach [Inhabited α] (merge : α → ρ → α) : HRepository α → List Nat → Prop where
  | init (initialItems : List (RItem α)) (nid : Int) :
      Reach merge (constructH initialItems nid) []
  | createStep (s : HRepository α) (H : List Nat) (item : α) :
      Reach merge s H → Reach merge (createH s item).2 ((createH s item).1 :: H)
  | getAllStep (s : HRepository α) (H : List Nat) :
      Reach merge s H → Reach merge (getAllH s).2 ((getAllH s).1 ++ H)
  | getByIdStep (s : HRepository α) (H : List Nat) (id : Int) :
      Reach merge s H →
      Reach merge (getByIdH s id).2 ((getByIdH s id).1.toList ++ H)
  | updateStep (s : HRepository α) (H : List Nat) (id : Int) (u : ρ) :
      Reach merge s H →
      Reach merge (updateH merge s id u).2 ((updateH merge s id u).1.toList ++ H)
  | delStep (s : HRepository α) (H : List Nat) (id : Int) :
      Reach merge s H → Reach merge (delH s id).2 H
  | mutateStep (s : HRepository α) (H : List Nat) (a : Nat) (v : RItem α) :
      Reach merge s H → a ∈ H → Reach merge (mutate s a v) H

end HRepository

/-!
## Invariants and concrete fixtures

Named invariants used by the claims, and small concrete states used to
instantiate the theorems.
-/

/-- ID freshness: the next-assigned id is strictly greater than every id
currently present. -/
def Repository.freshInv (r : Repository α) : Prop :=
  ∀ it ∈ r.items, it.id < r.nextId

/-- Timestamp invariant with a clock bound: every stored task has
`createdAt <= updatedAt`, and no timestamp is ahead of the last clock reading
`bound`. -/
def TodoAppState.timeInv (bound : Int) (st : TodoAppState) : Prop :=
  ∀ t ∈ st.todoRepository.items,
    t.payload.createdAt ≤ t.payload.updatedAt ∧ t.payload.updatedAt ≤ bound

/-- Heap-state invariant: every stored address is a live heap address, and
every address handed out to callers is live and distinct from every stored
address. -/
def HRepository.SepInv (s : HRepository α) (H : List Nat) : Prop :=
  (∀ a ∈ s.itemAddrs, a < s.heap.length) ∧
  (∀ a ∈ H, a < s.heap.length ∧ a ∉ s.itemAddrs)

/-- A pending example todo. -/
def exTodo1 : Todo :=
  ⟨1, { text := "Buy milk", status := .pending, createdAt := 10, updatedAt := 10,
        dueDate := none, priority := .medium }⟩

/-- A completed example todo. -/
def exTodo2 : Todo :=
  ⟨2, { text := "Ship it", status := .completed, createdAt := 11, updatedAt := 12,
        dueDate := some 100, priority := .high }⟩

/-- An example repository holding the two example todos. -/
def exRepo2 : Repository TodoFields :=
  { items := [exTodo1, exTodo2], nextId := 3 }

/-- An example application state filtered down to completed tasks. -/
def exState2 : TodoAppState :=
  { todoRepository := exRepo2, filter := .byStatus .completed }

/-- An update dto that only clears the due date. -/
def exClearDue : UpdateTodoDto :=
  { text := none, status := none, priority := none, dueDate := some .nullV }

/-- An empty heap-instrumented store (payloads are bare integers). -/
def exH0 : HRepository Int :=
  HRepository.constructH [] 1

/-- The heap store after one `create`, and the address handed back to the
caller. -/
def exH1 : HRepository Int :=
  (exH0.createH 42).2

/-- The address `create` handed out on the way to `exH1`. -/
def exH1Addr : Nat :=
  (exH0.createH 42).1

/-- A payload-overwriting merge for the heap fixtures. -/
def intMerge : Int → Int → Int :=
  fun _ u => u

/-!
## Helper lemmas
-/

namespace Aux

theorem le_foldl_max (xs : List Int) (a : Int) : a ≤ xs.foldl max a := by
  induction xs generalizing a with
  | nil => exact le_refl a
  | cons x xs ih => exact le_trans (le_max_left a x) (ih (max a x))

theorem mem_le_foldl_max {xs : List Int} {x : Int} (hx : x ∈ xs) (a : Int) :
    x ≤ xs.foldl max a := by
  induction xs generalizing a with
  | nil => cases hx
  | cons y ys ih =>
    rcases List.mem_cons.mp hx with rfl | h
    · exact le_trans (le_max_right a x) (le_foldl_max ys (max a x))
    · exact ih h (max a y)

theorem foldl_max_mem (xs : List Int) (a : Int) :
    xs.foldl max a = a ∨ xs.foldl max a ∈ xs := by
  induction xs generalizing a with
  | nil => exact Or.inl rfl
  | cons x xs ih =>
    rcases ih (max a x) with h | h
    · rw [List.foldl_cons, h]
      rcases max_choice a x with h' | h'
      · exact Or.inl h'
      · exact Or.inr (by rw [h']; exact List.mem_cons_self x xs)
    · exact Or.inr (List.mem_cons_of_mem x h)

end Aux

namespace Repository

theorem validateItems_ok {α : Type} {l l' : List (RItem α)} {seen : List Int}
    (h : validateItems seen l = .ok l') : l' = l := by
  induction l generalizing seen l' with
  | nil =>
    simp only [validateItems, Except.ok.injEq] at h
    exact h.symm
  | cons it rest ih =>
    by_cases h1 : it.id ≤ 0
    · simp [validateItems, h1] at h
    · by_cases h2 : it.id ∈ seen
      · simp [validateItems, h1, h2] at h
      · simp only [validateItems, if_neg h1, if_neg h2] at h
        cases hrec : validateItems (it.id :: seen) rest with
        | error e => rw [hrec] at h; cases h
        | ok tail =>
          rw [hrec] at h
          simp only [Except.ok.injEq] at h
          rw [← h, ih hrec]

theorem validateItems_error_of_nonpos {α : Type} {l : List (RItem α)} (seen : List Int)
    (h : ∃ it ∈ l, it.id ≤ 0) : ∃ e, validateItems seen l = .error e := by
  induction l generalizing seen with
  | nil => obtain ⟨it, hm, _⟩ := h; cases hm
  | cons it rest ih =>
    by_cases h1 : it.id ≤ 0
    · exact ⟨"Invalid ID: " ++ toString it.id ++ ". ID must be a positive number",
        by simp [validateItems, h1]⟩
    · by_cases h2 : it.id ∈ seen
      · exact ⟨"Duplicate ID found: " ++ toString it.id, by simp [validateItems, h1, h2]⟩
      · obtain ⟨x, hx, hx0⟩ := h
        rcases List.mem_cons.mp hx with rfl | hx'
        · exact absurd hx0 h1
        · obtain ⟨e, he⟩ := ih (it.id :: seen) ⟨x, hx', hx0⟩
          exact ⟨e, by simp [validateItems, h1, h2, he]⟩

theorem validateItems_error_of_dup {α : Type} {l : List (RItem α)} (seen : List Int)
    (h : ¬ (l.map RItem.id).Nodup ∨ ∃ it ∈ l, it.id ∈ seen) :
    ∃ e, validateItems seen l = .error e := by
  induction l generalizing seen with
  | nil =>
    rcases h with h | ⟨it, hm, _⟩
    · exact absurd (by simp) h
    · cases hm
  | cons it rest ih =>
    by_cases h1 : it.id ≤ 0
    · exact ⟨"Invalid ID: " ++ toString it.id ++ ". ID must be a positive number",
        by simp [validateItems, h1]⟩
    · by_cases h2 : it.id ∈ seen
      · exact ⟨"Duplicate ID found: " ++ toString it.id, by simp [validateItems, h1, h2]⟩
      · have hrec : ∃ e, validateItems (it.id :: seen) rest = .error e := by
          apply ih
          rcases h with h | ⟨x, hx, hxs⟩
          · by_cases hnd : (rest.map RItem.id).Nodup
            · rw [List.map_cons, List.nodup_cons] at h
              have hmem : it.id ∈ rest.map RItem.id := by
                by_contra hc
                exact h ⟨hc, hnd⟩
              obtain ⟨x, hx, hxid⟩ := List.mem_map.mp hmem
              exact Or.inr ⟨x, hx, by rw [hxid]; exact List.mem_cons_self _ _⟩
            · exact Or.inl hnd
          · rcases List.mem_cons.mp hx with rfl | hx'
            · exact absurd hxs h2
            · exact Or.inr ⟨x, hx', List.mem_cons_of_mem _ hxs⟩
        obtain ⟨e, he⟩ := hrec
        exact ⟨e, by simp [validateItems, h1, h2, he]⟩

theorem validateItems_ok_of_valid {α : Type} {l : List (RItem α)} (seen : List Int)
    (hpos : ∀ it ∈ l, 0 < it.id) (hnd : (l.map RItem.id).Nodup)
    (hdisj : ∀ it ∈ l, it.id ∉ seen) :
    validateItems seen l = .ok l := by
  induction l generalizing seen with
  | nil => simp [validateItems]
  | cons it rest ih =>
    have h1 : ¬ it.id ≤ 0 := by
      have := hpos it (List.mem_cons_self _ _)
      omega
    have h2 : it.id ∉ seen := hdisj it (List.mem_cons_self _ _)
    rw [List.map_cons, List.nodup_cons] at hnd
    have hrec : validateItems (it.id :: seen) rest = .ok rest := by
      apply ih (it.id :: seen) (fun x hx => hpos x (List.mem_cons_of_mem _ hx)) hnd.2
      intro x hx
      simp only [List.mem_cons, not_or]
      constructor
      · intro heq
        exact hnd.1 (heq ▸ List.mem_map_of_mem RItem.id hx)
      · exact hdisj x (List.mem_cons_of_mem _ hx)
    simp [validateItems, h1, h2, hrec]

theorem construct_ok {α : Type} {l : List (RItem α)} {r : Repository α}
    (h : construct l = .ok r) :
    r.items = l ∧
    r.nextId = (if l.isEmpty then 1 else ((l.map RItem.id).foldl max 0) + 1) := by
  cases hv : validateItems ([] : List Int) l with
  | error e => rw [construct, hv] at h; cases h
  | ok l2 =>
    rw [construct, hv] at h
    simp only [Except.ok.injEq] at h
    rw [← h]
    exact ⟨validateItems_ok hv, rfl⟩

theorem construct_ok_of_valid {α : Type} (l : List (RItem α))
    (hpos : ∀ it ∈ l, 0 < it.id) (hnd : (l.map RItem.id).Nodup) :
    construct l =
      .ok { items := l,
            nextId := if l.isEmpty then 1 else ((l.map RItem.id).foldl max 0) + 1 } := by
  rw [construct, validateItems_ok_of_valid [] hpos hnd (by simp)]

end Repository

namespace Repository

theorem updateItems_eq_none {α ρ : Type} {merge : α → ρ → α} {id : Int} {u : ρ}
    {l : List (RItem α)} :
    updateItems merge id u l = none ↔ ∀ it ∈ l, it.id ≠ id := by
  induction l with
  | nil => simp [updateItems]
  | cons it rest ih =>
    by_cases h : it.id = id
    · simp [updateItems, h]
    · cases hrec : updateItems merge id u rest with
      | none =>
        simp only [updateItems, beq_iff_eq, if_neg h, hrec]
        constructor
        · intro _ x hx
          rcases List.mem_cons.mp hx with rfl | hx'
          · exact h
          · exact ih.mp hrec x hx'
        · intro _
          trivial
      | some p =>
        obtain ⟨m, rest'⟩ := p
        simp only [updateItems, beq_iff_eq, if_neg h, hrec]
        constructor
        · intro hc; cases hc
        · intro hall
          have : updateItems merge id u rest = none :=
            ih.mpr (fun x hx => hall x (List.mem_cons_of_mem _ hx))
          rw [hrec] at this
          cases this

theorem updateItems_eq_some {α ρ : Type} {merge : α → ρ → α} {id : Int} {u : ρ}
    {l l' : List (RItem α)} {m : RItem α}
    (h : updateItems merge id u l = some (m, l')) :
    ∃ pre it post, l = pre ++ it :: post ∧ (∀ x ∈ pre, x.id ≠ id) ∧ it.id = id ∧
      m = ⟨it.id, merge it.payload u⟩ ∧ l' = pre ++ m :: post := by
  induction l generalizing l' m with
  | nil => simp [updateItems] at h
  | cons it rest ih =>
    by_cases hid : it.id = id
    · simp only [updateItems, beq_iff_eq, if_pos hid, Option.some.injEq, Prod.mk.injEq] at h
      exact ⟨[], it, rest, rfl, by simp, hid, h.1.symm, by simp [← h.2, ← h.1]⟩
    · cases hrec : updateItems merge id u rest with
      | none =>
        simp only [updateItems, beq_iff_eq, if_neg hid, hrec] at h
        cases h
      | some p =>
        obtain ⟨m0, rest'⟩ := p
        simp only [updateItems, beq_iff_eq, if_neg hid, hrec, Option.some.injEq,
          Prod.mk.injEq] at h
        obtain ⟨pre, it0, post, hsplit, hpre, hid0, hm0, hrest'⟩ := ih hrec
        refine ⟨it :: pre, it0, post, by simp [hsplit], ?_, hid0, by rw [← h.1, hm0], ?_⟩
        · intro x hx
          rcases List.mem_cons.mp hx with rfl | hx'
          · exact hid
          · exact hpre x hx'
        · rw [← h.2, hrest', ← h.1, hm0]
          simp

theorem updateItems_of_mem {α ρ : Type} {merge : α → ρ → α} {id : Int} {u : ρ}
    {l : List (RItem α)} {it : RItem α} (hm : it ∈ l) (hid : it.id = id) :
    ∃ m l', updateItems merge id u l = some (m, l') := by
  cases hu : updateItems merge id u l with
  | none => exact absurd hid (updateItems_eq_none.mp hu it hm)
  | some p => exact ⟨p.1, p.2, rfl⟩

theorem updateItems_of_find? {α ρ : Type} {merge : α → ρ → α} {id : Int} {u : ρ}
    {l : List (RItem α)} {t : RItem α}
    (h : l.find? (fun it => it.id == id) = some t) :
    ∃ l', updateItems merge id u l = some (⟨t.id, merge t.payload u⟩, l') ∧
      l'.find? (fun it => it.id == id) = some ⟨t.id, merge t.payload u⟩ := by
  induction l with
  | nil => simp at h
  | cons it rest ih =>
    by_cases hid : it.id = id
    · rw [List.find?_cons_of_pos _ (by simp [hid])] at h
      obtain rfl : it = t := by injection h
      refine ⟨(⟨it.id, merge it.payload u⟩ : RItem α) :: rest, ?_, ?_⟩
      · simp [updateItems, hid]
      · exact List.find?_cons_of_pos _ (by simp [hid])
    · rw [List.find?_cons_of_neg _ (by simp [hid])] at h
      obtain ⟨l', h1, h2⟩ := ih h
      refine ⟨it :: l', by simp [updateItems, hid, h1], ?_⟩
      rw [List.find?_cons_of_neg _ (by simp [hid])]
      exact h2

theorem update_map_id {α ρ : Type} {merge : α → ρ → α} {r : Repository α} {id : Int}
    {u : ρ} {m : RItem α} {r' : Repository α}
    (h : update merge r id u = some (m, r')) :
    r'.items.map RItem.id = r.items.map RItem.id ∧ r'.nextId = r.nextId := by
  cases hu : updateItems merge id u r.items with
  | none => rw [update, hu] at h; cases h
  | some p =>
    obtain ⟨m0, items'⟩ := p
    rw [update, hu] at h
    simp only [Option.some.injEq, Prod.mk.injEq] at h
    obtain ⟨pre, it, post, hsplit, _, hid, hm0, hitems'⟩ := updateItems_eq_some hu
    refine ⟨?_, by rw [← h.2]⟩
    rw [← h.2]
    simp only [hitems', hsplit, List.map_append, List.map_cons, hm0]

end Repository

namespace Repository

theorem mem_del_items {α : Type} {r : Repository α} {id : Int} {x : RItem α} :
    x ∈ (r.del id).2.items ↔ x ∈ r.items ∧ x.id ≠ id := by
  simp [del, List.mem_filter]

theorem del_flag_eq {α : Type} {r : Repository α} {id : Int} :
    (r.del id).1 = existsId r id := by
  simp only [del, existsId]
  rcases h : r.items.any (fun it => it.id == id) with _ | _
  · simp only [List.any_eq_false] at h
    have : r.items.filter (fun it => !(it.id == id)) = r.items :=
      List.filter_eq_self.mpr (fun a ha => by simp [h a ha])
    simp [this]
  · simp only [List.any_eq_true] at h
    obtain ⟨x, hx, hxid⟩ := h
    simp only [decide_eq_true_eq]
    rw [List.length_filter_lt_length_iff_exists]
    exact ⟨x, hx, by simp [hxid]⟩

theorem del_missing {α : Type} {r : Repository α} {id : Int}
    (h : existsId r id = false) :
    (r.del id).1 = false ∧ (r.del id).2.count = r.count := by
  have hall : ∀ it ∈ r.items, ¬ (it.id == id) = true := by
    simpa [existsId, List.any_eq_false] using h
  have hfil : r.items.filter (fun it => !(it.id == id)) = r.items :=
    List.filter_eq_self.mpr (fun a ha => by simp [hall a ha])
  constructor
  · rw [del_flag_eq, h]
  · simp [del, count, hfil]

theorem del_existing {α : Type} {r : Repository α} {id : Int} {it : RItem α}
    (hnd : (r.items.map RItem.id).Nodup) (hm : it ∈ r.items) (hid : it.id = id) :
    (r.del id).1 = true ∧ (r.del id).2.count + 1 = r.count ∧
    ∃ pre post, r.items = pre ++ it :: post ∧ (r.del id).2.items = pre ++ post := by
  obtain ⟨pre, post, hsplit⟩ := List.append_of_mem hm
  have hnd' := hnd
  rw [hsplit, List.map_append, List.map_cons, List.nodup_append] at hnd'
  obtain ⟨hpre, hcons, hdisj⟩ := hnd'
  have hprene : ∀ x ∈ pre, ¬ x.id = id := by
    intro x hx hxid
    exact hdisj (List.mem_map_of_mem RItem.id hx)
      (by rw [hxid, ← hid]; exact List.mem_cons_self _ _)
  have hpostne : ∀ x ∈ post, ¬ x.id = id := by
    rw [List.nodup_cons] at hcons
    intro x hx hxid
    exact hcons.1 (by rw [hid, ← hxid]; exact List.mem_map_of_mem RItem.id hx)
  have hfil : r.items.filter (fun x => !(x.id == id)) =
      pre ++ post := by
    rw [hsplit, List.filter_append, List.filter_cons]
    have : (!(it.id == id)) = false := by simp [hid]
    rw [this]
    rw [List.filter_eq_self.mpr (fun a ha => by simp [hprene a ha]),
      List.filter_eq_self.mpr (fun a ha => by simp [hpostne a ha])]
    simp
  refine ⟨?_, ?_, pre, post, hsplit, ?_⟩
  · rw [del_flag_eq]
    simp only [existsId, List.any_eq_true]
    exact ⟨it, hm, by simp [hid]⟩
  · show ((r.del id).2.items).length + 1 = r.items.length
    have : (r.del id).2.items = pre ++ post := hfil
    rw [this, hsplit]
    simp
    omega
  · exact hfil

end Repository

/-!
## Claim theorems
-/

/-- C8: every constructed `Result` is exactly one of success or failure
(`isFailure` is the negation of `isSuccess`); constructing a success together
with an error, or a failure without a message, is rejected by the
constructor; `getValue` on a success built from value `x` returns exactly
`x`, and `getValue` on any constructed failure fails with the invalid-state
error. -/
theorem c8_result_invariants {α : Type} :
    (∀ (b : Bool) (e : Option String) (v : Option α) (r : Result α),
        Result.mkResult b e v = .ok r → r.isFailure = !r.isSuccess)
  ∧ (∀ e : String, e ≠ "" → ∀ v : Option α,
        Result.mkResult true (some e) v =
          .error "InvalidOperation: A result cannot be successful and contain an error")
  ∧ (∀ v : Option α,
        Result.mkResult false none v =
          .error "InvalidOperation: A failing result needs to contain an error message")
  ∧ (∀ v : Option α,
        Result.mkResult false (some "") v =
          .error "InvalidOperation: A failing result needs to contain an error message")
  ∧ (∀ x : α,
        Result.mkResult true none (some x) = .ok (Result.ok (some x))
        ∧ (Result.ok (some x)).getValue = .ok (some x))
  ∧ (∀ e : String, e ≠ "" →
        Result.mkResult false (some e) (none : Option α) = .ok (Result.fail e))
  ∧ (∀ (b : Bool) (e : Option String) (v : Option α) (r : Result α),
        Result.mkResult b e v = .ok r → r.isFailure = true →
          r.getValue = .error "Can't get the value of a failed result.") := by
  refine ⟨?_, ?_, ?_, ?_, ?_, ?_, ?_⟩
  · intro b e v r h
    cases b <;> by_cases he : strTruthy e = true <;>
      simp [Result.mkResult, he] at h <;> simp [← h]
  · intro e he v
    have ht : strTruthy (some e) = true := by simp [strTruthy, he]
    simp [Result.mkResult, ht]
  · intro v
    simp [Result.mkResult, strTruthy]
  · intro v
    simp [Result.mkResult, strTruthy]
  · intro x
    constructor
    · simp [Result.mkResult, strTruthy, Result.ok]
    · simp [Result.getValue, Result.ok]
  · intro e he
    have ht : strTruthy (some e) = true := by simp [strTruthy, he]
    simp [Result.mkResult, ht, Result.fail]
  · intro b e v r h hf
    cases b <;> by_cases he : strTruthy e = true <;>
      simp [Result.mkResult, he] at h <;>
      simp [← h, Result.getValue] at hf ⊢

/-- Witness for C8 at concrete inputs over `Nat`. -/
theorem c8_result_invariants_witness :
    Result.mkResult true (some "boom") (some (1 : Nat)) =
      .error "InvalidOperation: A result cannot be successful and contain an error"
    ∧ (Result.ok (some (5 : Nat))).getValue = .ok (some 5) :=
  ⟨(c8_result_invariants (α := Nat)).2.1 "boom" (by decide) (some 1),
   ((c8_result_invariants (α := Nat)).2.2.2.2.1 5).2⟩

/-- C7: the `todos` view recomputed on every read yields every stored task
when the filter is `'all'`, and with a status filter exactly the stored tasks
with that status, preserving the store's insertion order (a sublist of
`getAll`), for every current store contents and filter value. -/
theorem c7_filtered_view (st : TodoAppState) :
    (st.filter = .all → st.todos = st.todoRepository.getAll)
  ∧ (∀ s : TodoStatus, st.filter = .byStatus s →
      (∀ t : Todo, t ∈ st.todos ↔ t ∈ st.todoRepository.getAll ∧ t.payload.status = s)
      ∧ st.todos.Sublist st.todoRepository.getAll) := by
  constructor
  · intro h
    simp [TodoAppState.todos, h]
  · intro s h
    constructor
    · intro t
      simp [TodoAppState.todos, h, List.mem_filter]
    · simp only [TodoAppState.todos, h]
      exact List.filter_sublist _

/-- Witness for C7: with a pending and a completed task stored and the filter
set to completed, membership in the view is exactly membership in the store
with completed status. -/
theorem c7_filtered_view_witness :
    exTodo2 ∈ TodoAppState.todos exState2 ↔
      exTodo2 ∈ exState2.todoRepository.getAll ∧ exTodo2.payload.status = .completed :=
  ((c7_filtered_view exState2).2 .completed rfl).1 exTodo2

/-- C6: `delete` on a missing id returns false and leaves the count
unchanged; on an existing id (ids unique) it returns true, decreases the
count by exactly one, and removes exactly the item with that id; it never
throws for "not found". Accordingly `deleteTodo` yields a failure result
exactly when the id is absent, and a success carrying `true` otherwise. -/
theorem c6_delete_semantics {α : Type} :
    (∀ (r : Repository α) (id : Int), r.existsId id = false →
        (r.del id).1 = false ∧ (r.del id).2.count = r.count)
  ∧ (∀ (r : Repository α) (id : Int) (it : RItem α),
        (r.items.map RItem.id).Nodup → it ∈ r.items → it.id = id →
        (r.del id).1 = true ∧ (r.del id).2.count + 1 = r.count ∧
        (∀ x : RItem α, x ∈ (r.del id).2.items ↔ x ∈ r.items ∧ x.id ≠ id))
  ∧ (∀ (st : TodoAppState) (id : Int),
        ((st.deleteTodo id).1.isFailure = true ↔
          st.todoRepository.existsId id = false)
      ∧ (st.todoRepository.existsId id = true →
          (st.deleteTodo id).1 = Result.ok (some true))) := by
  refine ⟨?_, ?_, ?_⟩
  · intro r id h
    exact Repository.del_missing h
  · intro r id it hnd hm hid
    obtain ⟨h1, h2, _⟩ := Repository.del_existing hnd hm hid
    exact ⟨h1, h2, fun x => Repository.mem_del_items⟩
  · intro st id
    have hflag := @Repository.del_flag_eq TodoFields st.todoRepository id
    constructor
    · cases hex : st.todoRepository.existsId id <;>
        rw [hex] at hflag <;>
        simp [TodoAppState.deleteTodo, hflag, Result.ok, Result.fail]
    · intro hex
      rw [hex] at hflag
      simp [TodoAppState.deleteTodo, hflag]

/-- Witness for C6: deleting the absent id 5 from the two-item store, and
deleting the present id 1. -/
theorem c6_delete_semantics_witness :
    ((exRepo2.del 5).1 = false ∧ (exRepo2.del 5).2.count = exRepo2.count)
  ∧ ((exRepo2.del 1).1 = true ∧ (exRepo2.del 1).2.count + 1 = exRepo2.count ∧
      (∀ x : Todo, x ∈ (exRepo2.del 1).2.items ↔ x ∈ exRepo2.items ∧ x.id ≠ 1)) :=
  ⟨c6_delete_semantics.1 exRepo2 5 (by decide),
   c6_delete_semantics.2.1 exRepo2 1 exTodo1 (by decide) (by decide) (by decide)⟩

/-- C10 (implicit): a successful `update` leaves the item count unchanged and
the sequence of ids returned by `getAll` identical, so it never inserts,
removes, or reorders items and changes no item's id. -/
theorem c10_update_membership_order {α ρ : Type} (merge : α → ρ → α)
    (r : Repository α) (id : Int) (u : ρ) (m : RItem α) (r' : Repository α)
    (h : Repository.update merge r id u = some (m, r')) :
    r'.count = r.count ∧ r'.getAll.map RItem.id = r.getAll.map RItem.id := by
  obtain ⟨hmap, _⟩ := Repository.update_map_id h
  refine ⟨?_, hmap⟩
  have hlen := congrArg List.length hmap
  simpa [Repository.count, Repository.getAll] using hlen

/-- Witness for C10: a concrete status update on the two-item store. -/
theorem c10_update_membership_order_witness :
    (Repository.mk [RItem.mk 1 (TodoFields.mk "Buy milk" .completed 10 99 none .medium), exTodo2] 3).count = exRepo2.count ∧
    (Repository.mk [RItem.mk 1 (TodoFields.mk "Buy milk" .completed 10 99 none .medium), exTodo2] 3).getAll.map RItem.id =
      exRepo2.getAll.map RItem.id :=
  c10_update_membership_order mergeTodo exRepo2 1
    (TodoUpdateData.mk none (some .completed) none (some 99) none none)
    (RItem.mk 1 (TodoFields.mk "Buy milk" .completed 10 99 none .medium))
    (Repository.mk [RItem.mk 1 (TodoFields.mk "Buy milk" .completed 10 99 none .medium), exTodo2] 3)
    (by decide)

/-- C4: `update` on a missing id returns absence (`none`), not an exception;
on an existing id it replaces the first matching item by the spread-merge of
the partial update into a copy of that item, returns that merged item, and
for every field: a key absent from the partial update leaves the stored field
unchanged, a present key replaces it. -/
theorem c4_update_frame :
    (∀ (r : Repository TodoFields) (id : Int) (u : TodoUpdateData),
        Repository.update mergeTodo r id u = none ↔ ∀ it ∈ r.items, it.id ≠ id)
  ∧ (∀ (r : Repository TodoFields) (id : Int) (u : TodoUpdateData)
        (m : Todo) (r' : Repository TodoFields),
        Repository.update mergeTodo r id u = some (m, r') →
        ∃ pre it post,
          r.items = pre ++ it :: post ∧ (∀ x ∈ pre, x.id ≠ id) ∧ it.id = id ∧
          r'.items = pre ++ m :: post ∧ r'.nextId = r.nextId ∧
          m.id = it.id ∧
          m.payload = mergeTodo it.payload u ∧
          (u.text = none → m.payload.text = it.payload.text) ∧
          (∀ v, u.text = some v → m.payload.text = v) ∧
          (u.status = none → m.payload.status = it.payload.status) ∧
          (∀ v, u.status = some v → m.payload.status = v) ∧
          (u.priority = none → m.payload.priority = it.payload.priority) ∧
          (∀ v, u.priority = some v → m.payload.priority = v) ∧
          (u.createdAt = none → m.payload.createdAt = it.payload.createdAt) ∧
          (∀ v, u.createdAt = some v → m.payload.createdAt = v) ∧
          (u.updatedAt = none → m.payload.updatedAt = it.payload.updatedAt) ∧
          (∀ v, u.updatedAt = some v → m.payload.updatedAt = v) ∧
          (u.dueDate = none → m.payload.dueDate = it.payload.dueDate) ∧
          (∀ v, u.dueDate = some v → m.payload.dueDate = v)) := by
  constructor
  · intro r id u
    cases hu : Repository.updateItems mergeTodo id u r.items with
    | none =>
      simp only [Repository.update, hu]
      simpa using Repository.updateItems_eq_none.mp hu
    | some p =>
      obtain ⟨m0, items'⟩ := p
      simp only [Repository.update, hu]
      constructor
      · intro hc
        cases hc
      · intro hall
        have hn := (@Repository.updateItems_eq_none TodoFields TodoUpdateData mergeTodo id u r.items).mpr hall
        rw [hu] at hn
        cases hn
  · intro r id u m r' h
    cases hu : Repository.updateItems mergeTodo id u r.items with
    | none =>
      rw [Repository.update, hu] at h
      cases h
    | some p =>
      obtain ⟨m0, items'⟩ := p
      rw [Repository.update, hu] at h
      simp only [Option.some.injEq, Prod.mk.injEq] at h
      obtain ⟨hm, hr'⟩ := h
      obtain ⟨pre, it, post, hsplit, hpre, hid, hm0, hitems'⟩ :=
        Repository.updateItems_eq_some hu
      rw [hm] at hm0 hitems'
      have hpay : m.payload = mergeTodo it.payload u := by rw [hm0]
      refine ⟨pre, it, post, hsplit, hpre, hid, ?_, ?_, by rw [hm0], hpay,
        ?_, ?_, ?_, ?_, ?_, ?_, ?_, ?_, ?_, ?_, ?_, ?_⟩
      · rw [← hr', hitems']
      · rw [← hr']
      all_goals intros
      all_goals simp [hpay, mergeTodo, *]

/-- Witness for C4: missing id 7 on the two-item store, then a concrete
priority-only update of id 2. -/
theorem c4_update_frame_witness :
    (Repository.update mergeTodo exRepo2 7
        (TodoUpdateData.mk none none none none none none) = none)
  ∧ (∃ pre it post,
      exRepo2.items = pre ++ it :: post ∧ (∀ x ∈ pre, x.id ≠ 2) ∧ it.id = 2 ∧
      (Repository.mk [exTodo1, RItem.mk 2 (TodoFields.mk "Ship it" .completed 11 12 (some 100) .low)] 3).items
        = pre ++ RItem.mk 2 (TodoFields.mk "Ship it" .completed 11 12 (some 100) .low) :: post ∧
      (Repository.mk [exTodo1, RItem.mk 2 (TodoFields.mk "Ship it" .completed 11 12 (some 100) .low)] 3).nextId
        = exRepo2.nextId ∧
      (RItem.mk 2 (TodoFields.mk "Ship it" .completed 11 12 (some 100) .low)).id = it.id ∧
      (RItem.mk 2 (TodoFields.mk "Ship it" .completed 11 12 (some 100) .low)).payload
        = mergeTodo it.payload (TodoUpdateData.mk none none none none none (some .low)) ∧
      ((TodoUpdateData.mk none none none none none (some .low)).text = none →
        (RItem.mk 2 (TodoFields.mk "Ship it" .completed 11 12 (some 100) .low)).payload.text
          = it.payload.text) ∧
      (∀ v, (TodoUpdateData.mk none none none none none (some .low)).text = some v →
        (RItem.mk 2 (TodoFields.mk "Ship it" .completed 11 12 (some 100) .low)).payload.text = v) ∧
      ((TodoUpdateData.mk none none none none none (some .low)).status = none →
        (RItem.mk 2 (TodoFields.mk "Ship it" .completed 11 12 (some 100) .low)).payload.status
          = it.payload.status) ∧
      (∀ v, (TodoUpdateData.mk none none none none none (some .low)).status = some v →
        (RItem.mk 2 (TodoFields.mk "Ship it" .completed 11 12 (some 100) .low)).payload.status = v) ∧
      ((TodoUpdateData.mk none none none none none (some .low)).priority = none →
        (RItem.mk 2 (TodoFields.mk "Ship it" .completed 11 12 (some 100) .low)).payload.priority
          = it.payload.priority) ∧
      (∀ v, (TodoUpdateData.mk none none none none none (some .low)).priority = some v →
        (RItem.mk 2 (TodoFields.mk "Ship it" .completed 11 12 (some 100) .low)).payload.priority = v) ∧
      ((TodoUpdateData.mk none none none none none (some .low)).createdAt = none →
        (RItem.mk 2 (TodoFields.mk "Ship it" .completed 11 12 (some 100) .low)).payload.createdAt
          = it.payload.createdAt) ∧
      (∀ v, (TodoUpdateData.mk none none none none none (some .low)).createdAt = some v →
        (RItem.mk 2 (TodoFields.mk "Ship it" .completed 11 12 (some 100) .low)).payload.createdAt = v) ∧
      ((TodoUpdateData.mk none none none none none (some .low)).updatedAt = none →
        (RItem.mk 2 (TodoFields.mk "Ship it" .completed 11 12 (some 100) .low)).payload.updatedAt
          = it.payload.updatedAt) ∧
      (∀ v, (TodoUpdateData.mk none none none none none (some .low)).updatedAt = some v →
        (RItem.mk 2 (TodoFields.mk "Ship it" .completed 11 12 (some 100) .low)).payload.updatedAt = v) ∧
      ((TodoUpdateData.mk none none none none none (some .low)).dueDate = none →
        (RItem.mk 2 (TodoFields.mk "Ship it" .completed 11 12 (some 100) .low)).payload.dueDate
          = it.payload.dueDate) ∧
      (∀ v, (TodoUpdateData.mk none none none none none (some .low)).dueDate = some v →
        (RItem.mk 2 (TodoFields.mk "Ship it" .completed 11 12 (some 100) .low)).payload.dueDate = v)) :=
  ⟨c4_update_frame.1 exRepo2 7 (TodoUpdateData.mk none none none none none none) |>.mpr (by decide),
   c4_update_frame.2 exRepo2 2 (TodoUpdateData.mk none none none none none (some .low))
     (RItem.mk 2 (TodoFields.mk "Ship it" .completed 11 12 (some 100) .low))
     (Repository.mk [exTodo1, RItem.mk 2 (TodoFields.mk "Ship it" .completed 11 12 (some 100) .low)] 3)
     (by decide)⟩

/-- C2: construction establishes that the next-assigned id is strictly
greater than every present id (`freshInv`, with next id at least 1); the
invariant is preserved by `create`, `update` and `delete`; `create` strictly
increases the next id, returns an id that was not previously present, and two
consecutive creates return distinct ids even for identical payloads. -/
theorem c2_id_freshness {α ρ : Type} (merge : α → ρ → α) :
    (∀ (l : List (RItem α)) (r : Repository α),
        Repository.construct l = .ok r → r.freshInv ∧ 1 ≤ r.nextId)
  ∧ (∀ (r : Repository α) (item : α), r.freshInv → ((r.create item).2).freshInv)
  ∧ (∀ (r : Repository α) (id : Int) (u : ρ) (m : RItem α) (r' : Repository α),
        Repository.update merge r id u = some (m, r') → r.freshInv → r'.freshInv)
  ∧ (∀ (r : Repository α) (id : Int), r.freshInv → ((r.del id).2).freshInv)
  ∧ (∀ (r : Repository α) (item : α), (r.create item).2.nextId = r.nextId + 1)
  ∧ (∀ (r : Repository α) (item : α), r.freshInv →
        ∀ it ∈ r.items, it.id ≠ (r.create item).1.id)
  ∧ (∀ (r : Repository α) (a b : α),
        (((r.create a).2).create b).1.id ≠ (r.create a).1.id) := by
  refine ⟨?_, ?_, ?_, ?_, ?_, ?_, ?_⟩
  · intro l r h
    obtain ⟨hitems, hnext⟩ := Repository.construct_ok h
    constructor
    · intro it hit
      rw [hitems] at hit
      rw [hnext]
      cases l with
      | nil => cases hit
      | cons x xs =>
        have hle : it.id ≤ ((x :: xs).map RItem.id).foldl max 0 :=
          Aux.mem_le_foldl_max (List.mem_map_of_mem RItem.id hit) 0
        simp only [List.isEmpty_cons, if_false, Bool.false_eq_true]
        omega
    · rw [hnext]
      cases l with
      | nil => simp
      | cons x xs =>
        have h0 := Aux.le_foldl_max ((x :: xs).map RItem.id) 0
        simp only [List.isEmpty_cons, if_false, Bool.false_eq_true]
        omega
  · intro r item hinv it hit
    simp only [Repository.create, List.mem_append, List.mem_singleton] at hit
    rcases hit with h | h
    · have := hinv it h
      show it.id < r.nextId + 1
      omega
    · subst h
      show r.nextId < r.nextId + 1
      omega
  · intro r id u m r' h hinv it' hit'
    obtain ⟨hmap, hnext⟩ := Repository.update_map_id h
    have hmem : it'.id ∈ r'.items.map RItem.id := List.mem_map_of_mem _ hit'
    rw [hmap] at hmem
    obtain ⟨it, hit, heq⟩ := List.mem_map.mp hmem
    rw [hnext, ← heq]
    exact hinv it hit
  · intro r id hinv it hit
    rw [Repository.mem_del_items] at hit
    exact hinv it hit.1
  · intro r item
    rfl
  · intro r item hinv it hit
    have := hinv it hit
    show it.id ≠ r.nextId
    omega
  · intro r a b
    show r.nextId + 1 ≠ r.nextId
    omega

/-- Witness for C2: the two-item store satisfies the freshness invariant
after construction, and its next create returns an unseen id. -/
theorem c2_id_freshness_witness :
    (exRepo2.freshInv ∧ 1 ≤ exRepo2.nextId)
  ∧ (∀ it ∈ exRepo2.items, it.id ≠ (exRepo2.create exTodo1.payload).1.id) := by
  have h1 := (c2_id_freshness (ρ := TodoUpdateData) mergeTodo).1 [exTodo1, exTodo2] exRepo2 rfl
  exact ⟨h1, (c2_id_freshness (ρ := TodoUpdateData) mergeTodo).2.2.2.2.2.1
    exRepo2 exTodo1.payload h1.1⟩

/-- C5: constructing a store from a list containing a non-positive id, or a
duplicated id, fails with a validation error; from any list with unique
positive ids it succeeds, `getAll` returns the input items, and the next
created item's id is the successor of the maximum present id (1 for the empty
list). -/
theorem c5_construction {α : Type} (l : List (RItem α)) :
    ((∃ it ∈ l, it.id ≤ 0) → ∃ e, Repository.construct l = .error e)
  ∧ (¬ (l.map RItem.id).Nodup → ∃ e, Repository.construct l = .error e)
  ∧ ((∀ it ∈ l, 0 < it.id) → (l.map RItem.id).Nodup →
      ∃ r, Repository.construct l = .ok r ∧ r.getAll = l ∧
        (l = [] → r.nextId = 1) ∧
        (l ≠ [] → ∀ item : α,
            ((r.create item).1.id - 1) ∈ l.map RItem.id ∧
            ∀ it ∈ l, it.id ≤ (r.create item).1.id - 1)) := by
  refine ⟨?_, ?_, ?_⟩
  · intro h
    obtain ⟨e, he⟩ := Repository.validateItems_error_of_nonpos ([] : List Int) h
    exact ⟨e, by simp only [Repository.construct, he]⟩
  · intro h
    obtain ⟨e, he⟩ := Repository.validateItems_error_of_dup ([] : List Int) (Or.inl h)
    exact ⟨e, by simp only [Repository.construct, he]⟩
  · intro hpos hnd
    refine ⟨_, Repository.construct_ok_of_valid l hpos hnd, rfl, ?_, ?_⟩
    · intro h
      subst h
      rfl
    · intro hne item
      have hifne : l.isEmpty = false := by
        cases l with
        | nil => exact absurd rfl hne
        | cons x xs => rfl
      constructor
      · show (if l.isEmpty then 1 else (l.map RItem.id).foldl max 0 + 1) - 1 ∈ l.map RItem.id
        rw [hifne]
        simp only [Bool.false_eq_true, if_false, add_sub_cancel_right]
        rcases Aux.foldl_max_mem (l.map RItem.id) 0 with h0 | hmem
        · cases l with
          | nil => exact absurd rfl hne
          | cons x xs =>
            have hx : x.id ≤ ((x :: xs).map RItem.id).foldl max 0 :=
              Aux.mem_le_foldl_max (List.mem_map_of_mem RItem.id (List.mem_cons_self x xs)) 0
            have hxpos := hpos x (List.mem_cons_self x xs)
            rw [h0] at hx
            omega
        · exact hmem
      · intro it hit
        show it.id ≤ (if l.isEmpty then 1 else (l.map RItem.id).foldl max 0 + 1) - 1
        rw [hifne]
        simp only [Bool.false_eq_true, if_false, add_sub_cancel_right]
        exact Aux.mem_le_foldl_max (List.mem_map_of_mem RItem.id hit) 0

/-- Witness for C5: the successful construction clause at the two-item list,
and the failure clauses at a non-positive id and a duplicate id. -/
theorem c5_construction_witness :
    (∃ e, Repository.construct [RItem.mk (0 : Int) exTodo1.payload] = .error e)
  ∧ (∃ e, Repository.construct [exTodo1, RItem.mk 1 exTodo2.payload] = .error e)
  ∧ (∃ r, Repository.construct [exTodo1, exTodo2] = .ok r ∧
      r.getAll = [exTodo1, exTodo2] ∧
      ([exTodo1, exTodo2] = ([] : List Todo) → r.nextId = 1) ∧
      ([exTodo1, exTodo2] ≠ ([] : List Todo) → ∀ item : TodoFields,
          ((r.create item).1.id - 1) ∈ [exTodo1, exTodo2].map RItem.id ∧
          ∀ it ∈ [exTodo1, exTodo2], it.id ≤ (r.create item).1.id - 1)) :=
  ⟨(c5_construction [RItem.mk (0 : Int) exTodo1.payload]).1
      ⟨RItem.mk (0 : Int) exTodo1.payload, by simp, by decide⟩,
   (c5_construction [exTodo1, RItem.mk 1 exTodo2.payload]).2.1 (by decide),
   (c5_construction [exTodo1, exTodo2]).2.2 (by decide) (by decide)⟩

/-- C3: for an existing id, `updateTodo` succeeds and the stored (and
returned) due date obeys the contract: an explicit null clears it, an
explicit date value replaces it, an explicit (non-empty) date-string is
normalized through the date parser and replaces it, and an absent `dueDate`
key leaves the stored due date untouched. -/
theorem c3_due_date_contract (parseDate : String → Int) (now : Int)
    (st : TodoAppState) (id : Int) (updates : UpdateTodoDto) (t0 : Todo)
    (h : st.todoRepository.getById id = some t0) :
    ∃ (ret : Todo) (st' : TodoAppState),
      TodoAppState.updateTodo parseDate now st id updates = (Result.ok (some ret), st') ∧
      st'.todoRepository.getById id = some ret ∧
      (updates.dueDate = some .nullV → ret.payload.dueDate = none) ∧
      (∀ d : Int, updates.dueDate = some (.dateV d) → ret.payload.dueDate = some d) ∧
      (∀ s : String, updates.dueDate = some (.strV s) → s ≠ "" →
          ret.payload.dueDate = some (parseDate s)) ∧
      (updates.dueDate = none → ret.payload.dueDate = t0.payload.dueDate) := by
  have hfind : st.todoRepository.items.find? (fun it => it.id == id) = some t0 := h
  obtain ⟨l', hup, hfind'⟩ := @Repository.updateItems_of_find? TodoFields TodoUpdateData
    mergeTodo id (TodoAppState.buildUpdateData parseDate now updates t0)
    st.todoRepository.items t0 hfind
  refine ⟨⟨t0.id, mergeTodo t0.payload (TodoAppState.buildUpdateData parseDate now updates t0)⟩,
    { st with todoRepository := { items := l', nextId := st.todoRepository.nextId } },
    ?_, ?_, ?_, ?_, ?_, ?_⟩
  · simp only [TodoAppState.updateTodo, h, Repository.update, hup]
  · exact hfind'
  · intro heq
    simp [mergeTodo, TodoAppState.buildUpdateData, heq]
  · intro d heq
    simp [mergeTodo, TodoAppState.buildUpdateData, heq]
  · intro s heq hs
    simp [mergeTodo, TodoAppState.buildUpdateData, heq, hs]
  · intro heq
    simp [mergeTodo, TodoAppState.buildUpdateData, heq]

/-- Witness for C3: clearing the due date of the completed example task. -/
theorem c3_due_date_contract_witness :
    ∃ (ret : Todo) (st' : TodoAppState),
      TodoAppState.updateTodo (fun _ => 0) 50 exState2 2 exClearDue =
        (Result.ok (some ret), st') ∧
      st'.todoRepository.getById 2 = some ret ∧
      (exClearDue.dueDate = some .nullV → ret.payload.dueDate = none) ∧
      (∀ d : Int, exClearDue.dueDate = some (.dateV d) → ret.payload.dueDate = some d) ∧
      (∀ s : String, exClearDue.dueDate = some (.strV s) → s ≠ "" →
          ret.payload.dueDate = some ((fun _ => (0 : Int)) s)) ∧
      (exClearDue.dueDate = none → ret.payload.dueDate = exTodo2.payload.dueDate) :=
  c3_due_date_contract (fun _ => 0) 50 exState2 2 exClearDue exTodo2 (by decide)

namespace TodoAppState

theorem timeInv_mono {bound bound' : Int} {st : TodoAppState}
    (hle : bound ≤ bound') (h : st.timeInv bound) : st.timeInv bound' := by
  intro t ht
  obtain ⟨h1, h2⟩ := h t ht
  exact ⟨h1, le_trans h2 hle⟩

end TodoAppState

/-- C9: `addTodo` stamps `createdAt = updatedAt = now`; a successful
`updateTodo` refreshes `updatedAt` to `now` and never mutates `createdAt`;
and under a monotone clock every operation preserves the invariant that every
stored task satisfies `createdAt <= updatedAt` (with all timestamps bounded
by the clock). -/
theorem c9_timestamp_invariant (parseDate : String → Int) :
    (∀ (bound now : Int) (st : TodoAppState) (f : TodoAppState.AddFields),
        bound ≤ now → st.timeInv bound →
        ((st.addTodo now f).2).timeInv now ∧
        ∃ t : Todo, (st.addTodo now f).1 = Result.ok (some t) ∧
          t.payload.createdAt = now ∧ t.payload.updatedAt = now)
  ∧ (∀ (bound now : Int) (st : TodoAppState) (id : Int) (u : UpdateTodoDto),
        bound ≤ now → st.timeInv bound →
        ((TodoAppState.updateTodo parseDate now st id u).2).timeInv now ∧
        (∀ t0 : Todo, st.todoRepository.getById id = some t0 →
          ∃ (ret : Todo) (st' : TodoAppState),
            TodoAppState.updateTodo parseDate now st id u = (Result.ok (some ret), st') ∧
            ret.payload.updatedAt = now ∧
            ret.payload.createdAt = t0.payload.createdAt))
  ∧ (∀ (bound : Int) (st : TodoAppState) (id : Int),
        st.timeInv bound → ((st.deleteTodo id).2).timeInv bound)
  ∧ (∀ (bound : Int) (st : TodoAppState),
        st.timeInv bound →
        ∀ t ∈ st.todoRepository.items,
          t.payload.createdAt ≤ t.payload.updatedAt) := by
  refine ⟨?_, ?_, ?_, ?_⟩
  · intro bound now st f hle hinv
    constructor
    · intro t ht
      simp only [TodoAppState.addTodo, Repository.create, List.mem_append,
        List.mem_singleton] at ht
      rcases ht with h | h
      · obtain ⟨h1, h2⟩ := hinv t h
        exact ⟨h1, le_trans h2 hle⟩
      · subst h
        exact ⟨le_refl now, le_refl now⟩
    · exact ⟨_, rfl, rfl, rfl⟩
  · intro bound now st id u hle hinv
    cases hget : st.todoRepository.getById id with
    | none =>
      constructor
      · simp only [TodoAppState.updateTodo, hget]
        exact TodoAppState.timeInv_mono hle hinv
      · intro t0 h0
        simp at h0
    | some t0 =>
      have hfind : st.todoRepository.items.find? (fun it => it.id == id) = some t0 := hget
      obtain ⟨l', hup, hfind'⟩ := @Repository.updateItems_of_find? TodoFields TodoUpdateData
        mergeTodo id (TodoAppState.buildUpdateData parseDate now u t0)
        st.todoRepository.items t0 hfind
      constructor
      · intro t ht
        simp only [TodoAppState.updateTodo, hget, Repository.update, hup] at ht
        obtain ⟨pre, it, post, hsplit, hpre, hid, hm, hl'⟩ :=
          Repository.updateItems_eq_some hup
        rw [hl'] at ht
        simp only [List.mem_append, List.mem_cons] at ht
        rcases ht with h | h | h
        · obtain ⟨h1, h2⟩ := hinv t (by rw [hsplit]; exact List.mem_append_left _ h)
          exact ⟨h1, le_trans h2 hle⟩
        · subst h
          obtain ⟨h1, h2⟩ := hinv t0 (List.mem_of_find?_eq_some hfind)
          constructor
          · simp only [mergeTodo, TodoAppState.buildUpdateData, Option.getD_some,
              Option.getD_none]
            omega
          · simp [mergeTodo, TodoAppState.buildUpdateData]
        · obtain ⟨h1, h2⟩ := hinv t
            (by rw [hsplit]; exact List.mem_append_right _ (List.mem_cons_of_mem _ h))
          exact ⟨h1, le_trans h2 hle⟩
      · intro t0' h0
        injection h0 with h0
        subst h0
        refine ⟨⟨t0.id, mergeTodo t0.payload (TodoAppState.buildUpdateData parseDate now u t0)⟩,
          { st with todoRepository := { items := l', nextId := st.todoRepository.nextId } },
          ?_, ?_, ?_⟩
        · simp only [TodoAppState.updateTodo, hget, Repository.update, hup]
        · simp [mergeTodo, TodoAppState.buildUpdateData]
        · simp [mergeTodo, TodoAppState.buildUpdateData]
  · intro bound st id hinv t ht
    have : t ∈ (st.todoRepository.del id).2.items := ht
    rw [Repository.mem_del_items] at this
    exact hinv t this.1
  · intro bound st hinv t ht
    exact (hinv t ht).1

/-- Witness for C9: adding a task at time 5 starting from the empty initial
state, under the trivial clock bound 0. -/
theorem c9_timestamp_invariant_witness :
    ((TodoAppState.init.addTodo 5
        (TodoAppState.AddFields.mk "Buy milk" .pending .medium none)).2).timeInv 5
    ∧ ∃ t : Todo,
        (TodoAppState.init.addTodo 5
          (TodoAppState.AddFields.mk "Buy milk" .pending .medium none)).1 =
          Result.ok (some t) ∧
        t.payload.createdAt = 5 ∧ t.payload.updatedAt = 5 :=
  (c9_timestamp_invariant (fun _ => 0)).1 0 5 TodoAppState.init
    (TodoAppState.AddFields.mk "Buy milk" .pending .medium none)
    (by decide) (fun t ht => by cases ht)

namespace HRepository

theorem storedValues_mutate {α : Type} [Inhabited α] {s : HRepository α} {a : Nat}
    {v : RItem α} (ha : a ∉ s.itemAddrs) :
    storedValues (mutate s a v) = storedValues s := by
  apply List.map_congr_left
  intro b hb
  have hne : a ≠ b := fun heq => ha (heq ▸ hb)
  simp only [cell, mutate, List.getElem?_set_ne hne]

theorem map_range'_getD {α : Type} [Inhabited α] (h copies : List (RItem α)) :
    (List.range' h.length copies.length).map
        (fun b => ((h ++ copies)[b]?).getD ⟨0, default⟩) = copies := by
  induction copies generalizing h with
  | nil => simp
  | cons c cs ih =>
    simp only [List.length_cons, List.range'_succ, List.map_cons]
    congr 1
    · rw [List.getElem?_append_right (le_refl h.length)]
      simp
    · have hrw : h ++ c :: cs = (h ++ [c]) ++ cs := by simp
      have hlen : h.length + 1 = (h ++ [c]).length := by simp
      simp only [hrw, hlen]
      exact ih (h ++ [c])

theorem getAllH_values {α : Type} [Inhabited α] (s : HRepository α) :
    (getAllH s).1.map (fun b => cell (getAllH s).2 b) = storedValues s := by
  have h := map_range'_getD s.heap (s.itemAddrs.map (fun a => cell s a))
  simp only [List.length_map] at h
  simpa [getAllH, cell, storedValues] using h

theorem getByIdH_value {α : Type} [Inhabited α] (s : HRepository α) (id : Int) :
    (getByIdH s id).1.map (fun b => cell (getByIdH s id).2 b) =
      (s.itemAddrs.find? (fun a => (cell s a).id == id)).map (fun a => cell s a) := by
  cases hf : s.itemAddrs.find? (fun a => (cell s a).id == id) with
  | none => simp [getByIdH, hf]
  | some a =>
    simp only [getByIdH, hf, alloc, Option.map_some]
    simp [cell, List.getElem?_concat_length]

theorem find?_map_congr {α : Type} {l : List Nat} {f g : Nat → RItem α} {id : Int}
    (h : ∀ b ∈ l, f b = g b) :
    (l.find? (fun b => (f b).id == id)).map f =
      (l.find? (fun b => (g b).id == id)).map g := by
  induction l with
  | nil => rfl
  | cons b bs ih =>
    have hb := h b (List.mem_cons_self _ _)
    by_cases hp : ((g b).id == id) = true
    · rw [List.find?_cons_of_pos (p := fun x => (f x).id == id) bs (by show ((f b).id == id) = true; rw [hb]; exact hp),
        List.find?_cons_of_pos (p := fun x => (g x).id == id) bs hp]
      simp [hb]
    · rw [List.find?_cons_of_neg (p := fun x => (f x).id == id) bs (by show ¬((f b).id == id) = true; rw [hb]; exact hp),
        List.find?_cons_of_neg (p := fun x => (g x).id == id) bs hp]
      exact ih (fun x hx => h x (List.mem_cons_of_mem _ hx))

end HRepository

namespace HRepository

theorem sepInv_constructH {α : Type} (l : List (RItem α)) (nid : Int) :
    SepInv (constructH l nid) [] := by
  constructor
  · intro a ha
    simpa [constructH] using List.mem_range.mp (by simpa [constructH] using ha)
  · intro a ha
    cases ha

theorem sepInv_createH {α : Type} {s : HRepository α} {H : List Nat} {item : α}
    (h : SepInv s H) : SepInv (createH s item).2 ((createH s item).1 :: H) := by
  obtain ⟨h1, h2⟩ := h
  constructor
  · intro a ha
    simp only [createH, List.mem_append, List.mem_singleton, List.length_append,
      List.length_cons] at ha ⊢
    rcases ha with ha | ha
    · have := h1 a ha
      omega
    · subst ha
      omega
  · intro a ha
    simp only [createH, List.mem_cons] at ha
    simp only [createH, List.length_append, List.mem_append, List.mem_singleton,
      List.length_cons]
    rcases ha with ha | ha
    · subst ha
      constructor
      · omega
      · intro hc
        rcases hc with hc | hc
        · have := h1 _ hc
          omega
        · omega
    · obtain ⟨ha1, ha2⟩ := h2 a ha
      constructor
      · omega
      · intro hc
        rcases hc with hc | hc
        · exact ha2 hc
        · omega

theorem sepInv_getAllH {α : Type} [Inhabited α] {s : HRepository α} {H : List Nat}
    (h : SepInv s H) : SepInv (getAllH s).2 ((getAllH s).1 ++ H) := by
  obtain ⟨h1, h2⟩ := h
  constructor
  · intro a ha
    simp only [getAllH, List.length_append, List.length_map] at ha ⊢
    have := h1 a ha
    omega
  · intro a ha
    simp only [getAllH, List.mem_append, List.mem_range'_1] at ha
    simp only [getAllH, List.length_append, List.length_map]
    rcases ha with ⟨hle, hlt⟩ | ha
    · constructor
      · omega
      · intro hc
        have := h1 a hc
        omega
    · obtain ⟨ha1, ha2⟩ := h2 a ha
      exact ⟨by omega, ha2⟩

theorem sepInv_getByIdH {α : Type} [Inhabited α] {s : HRepository α} {H : List Nat}
    {id : Int} (h : SepInv s H) :
    SepInv (getByIdH s id).2 ((getByIdH s id).1.toList ++ H) := by
  obtain ⟨h1, h2⟩ := h
  cases hf : s.itemAddrs.find? (fun a => (cell s a).id == id) with
  | none =>
    simpa [getByIdH, hf] using ⟨h1, h2⟩
  | some a0 =>
    simp only [getByIdH, hf, alloc]
    constructor
    · intro a ha
      simp only [List.length_append, List.length_singleton]
      have := h1 a ha
      omega
    · intro a ha
      simp only [Option.toList_some, List.singleton_append, List.mem_cons] at ha
      simp only [List.length_append, List.length_singleton]
      rcases ha with ha | ha
      · subst ha
        constructor
        · omega
        · intro hc
          have := h1 _ hc
          omega
      · obtain ⟨ha1, ha2⟩ := h2 a ha
        exact ⟨by omega, ha2⟩

theorem sepInv_updateH {α ρ : Type} [Inhabited α] {merge : α → ρ → α}
    {s : HRepository α} {H : List Nat} {id : Int} {u : ρ} (h : SepInv s H) :
    SepInv (updateH merge s id u).2 ((updateH merge s id u).1.toList ++ H) := by
  obtain ⟨h1, h2⟩ := h
  cases hf : s.itemAddrs.findIdx? (fun a => (cell s a).id == id) with
  | none =>
    simpa [updateH, hf] using ⟨h1, h2⟩
  | some i =>
    simp only [updateH, hf]
    constructor
    · intro a ha
      simp only [List.length_append, List.length_cons, List.length_singleton]
      rcases List.mem_or_eq_of_mem_set ha with ha | ha
      · have := h1 a ha
        omega
      · subst ha
        omega
    · intro a ha
      simp only [Option.toList_some, List.singleton_append, List.mem_cons] at ha
      simp only [List.length_append, List.length_cons, List.length_singleton]
      rcases ha with ha | ha
      · subst ha
        constructor
        · omega
        · intro hc
          rcases List.mem_or_eq_of_mem_set hc with hc | hc
          · have := h1 _ hc
            omega
          · omega
      · obtain ⟨ha1, ha2⟩ := h2 a ha
        constructor
        · omega
        · intro hc
          rcases List.mem_or_eq_of_mem_set hc with hc | hc
          · exact ha2 hc
          · omega

theorem sepInv_delH {α : Type} [Inhabited α] {s : HRepository α} {H : List Nat}
    {id : Int} (h : SepInv s H) : SepInv (delH s id).2 H := by
  obtain ⟨h1, h2⟩ := h
  constructor
  · intro a ha
    simp only [delH, List.mem_filter] at ha
    exact h1 a ha.1
  · intro a ha
    obtain ⟨ha1, ha2⟩ := h2 a ha
    refine ⟨ha1, ?_⟩
    intro hc
    simp only [delH, List.mem_filter] at hc
    exact ha2 hc.1

theorem sepInv_mutate {α : Type} {s : HRepository α} {H : List Nat} {a : Nat}
    {v : RItem α} (h : SepInv s H) : SepInv (mutate s a v) H := by
  obtain ⟨h1, h2⟩ := h
  constructor
  · intro b hb
    simp only [mutate, List.length_set]
    exact h1 b hb
  · intro b hb
    obtain ⟨hb1, hb2⟩ := h2 b hb
    exact ⟨by simp only [mutate, List.length_set]; exact hb1, hb2⟩

theorem reach_sepInv {α ρ : Type} [Inhabited α] {merge : α → ρ → α}
    {s : HRepository α} {H : List Nat} (h : Reach merge s H) : SepInv s H := by
  induction h with
  | init l nid => exact sepInv_constructH l nid
  | createStep s H item _ ih => exact sepInv_createH ih
  | getAllStep s H _ ih => exact sepInv_getAllH ih
  | getByIdStep s H id _ ih => exact sepInv_getByIdH ih
  | updateStep s H id u _ ih => exact sepInv_updateH ih
  | delStep s H id _ ih => exact sepInv_delH ih
  | mutateStep s H a v _ ha ih => exact sepInv_mutate ih

end HRepository

/-- C1: copy isolation. For every store state reachable by any sequence of
repository operations, with `H` the addresses of the objects handed out by
`create`/`getAll`/`getById`/`update`, overwriting any handed-out object
changes neither the stored values nor what a subsequent `getAll` or `getById`
returns. -/
theorem c1_copy_isolation {α ρ : Type} [Inhabited α] (merge : α → ρ → α)
    (s : HRepository α) (H : List Nat) (hr : HRepository.Reach merge s H)
    (a : Nat) (ha : a ∈ H) (v : RItem α) :
    HRepository.storedValues (s.mutate a v) = HRepository.storedValues s ∧
    ((s.mutate a v).getAllH.1.map
        (fun b => HRepository.cell (s.mutate a v).getAllH.2 b)
      = s.getAllH.1.map (fun b => HRepository.cell s.getAllH.2 b)) ∧
    (∀ id : Int,
      ((s.mutate a v).getByIdH id).1.map
          (fun b => HRepository.cell ((s.mutate a v).getByIdH id).2 b)
        = (s.getByIdH id).1.map (fun b => HRepository.cell (s.getByIdH id).2 b)) := by
  have hInv := HRepository.reach_sepInv hr
  have hna : a ∉ s.itemAddrs := (hInv.2 a ha).2
  have h1 : HRepository.storedValues (s.mutate a v) = HRepository.storedValues s :=
    HRepository.storedValues_mutate hna
  refine ⟨h1, ?_, ?_⟩
  · rw [HRepository.getAllH_values, HRepository.getAllH_values]
    exact h1
  · intro id
    rw [HRepository.getByIdH_value, HRepository.getByIdH_value]
    have hcell : ∀ b ∈ s.itemAddrs,
        HRepository.cell (s.mutate a v) b = HRepository.cell s b := by
      intro b hb
      have hne : a ≠ b := fun heq => hna (heq ▸ hb)
      simp only [HRepository.cell, HRepository.mutate, List.getElem?_set_ne hne]
    exact HRepository.find?_map_congr hcell

/-- Witness for C1: create one item in the empty store, then clobber the
object handed back by `create`; the stored values are untouched. -/
theorem c1_copy_isolation_witness :
    HRepository.storedValues (exH1.mutate exH1Addr ⟨99, 7⟩) =
      HRepository.storedValues exH1 :=
  (c1_copy_isolation intMerge exH1 [exH1Addr]
    (HRepository.Reach.createStep exH0 [] 42 (HRepository.Reach.init [] 1))
    exH1Addr (List.mem_cons_self _ _) ⟨99, 7⟩).1
